import Mathlib

/-!
Shallow embedding of the `express-dynamodb` wrapper package
(`src/index.ts`, `src/dynamodb-client.ts`, `src/dynamodb-doc.ts`).

Every facade operation of `src/index.ts` builds a request record and hands
it to `ddbDocClient.send`; we embed each operation as a pure
parameter-builder (`...Params`, returning `Except String _` because the
TypeScript code can `throw new Error(msg)` synchronously before the send)
together with a wrapper that applies a caller-supplied `send` function to
the built request.  An `.error` result therefore corresponds exactly to a
synchronous throw that happens before any request reaches the store.
-/

namespace ExpressDynamo

/-- A JavaScript runtime value, as far as the wrapper inspects values:
`typeof` distinguishes strings, numbers, booleans, `undefined` and
objects; `objV` is an opaque stand-in for any non-scalar object. -/
inductive Value where
  | str (s : String)
  | num (n : Int)
  | boolean (b : Bool)
  | undef
  | objV (id : Nat)
deriving DecidableEq, Repr

/-- The JavaScript `typeof` operator restricted to `Value`. -/
def jsTypeof : Value → String
  | .str _ => "string"
  | .num _ => "number"
  | .boolean _ => "boolean"
  | .undef => "undefined"
  | .objV _ => "object"

/-- A DynamoDB attribute value.  The `S` constructor carries a full
`Value` because the TypeScript code writes `{ S: v }` with whatever
runtime value `v` happens to be (e.g. `src/index.ts` line 24); `other`
stands for the remaining attribute encodings (`BOOL`, `M`, ...) that the
claims never inspect. -/
inductive AttrVal where
  | S (v : Value)
  | N (n : String)
  | other (v : Value)
deriving DecidableEq, Repr

/-- A document-level item: attribute name to native value, in JavaScript
object insertion order. -/
abbrev Item := List (String × Value)

/-- A low-level item: attribute name to typed attribute value. -/
abbrev RawItem := List (String × AttrVal)

/-- A continuation key (`LastEvaluatedKey` / `ExclusiveStartKey`). -/
abbrev RawKey := List (String × AttrVal)

/-- JavaScript property read `item[k]`: the stored value, or `undefined`
when the property is absent. -/
def jsGet (item : Item) (k : String) : Value :=
  (List.lookup k item).getD Value.undef

/-- Models `marshall` of `@aws-sdk/util-dynamodb` on a single value, for
the value forms this package sends: strings become `S`, numbers become
`N`, `undefined` is dropped (`insertOrUpdate` passes
`removeUndefinedValues: true`; `findOperated` only marshalls values it
has already validated to be scalars), and everything else keeps its
non-scalar encoding abstract. -/
def marshallValue : Value → Option AttrVal
  | .str s => some (AttrVal.S (Value.str s))
  | .num n => some (AttrVal.N (toString n))
  | .boolean b => some (AttrVal.other (Value.boolean b))
  | .undef => none
  | .objV i => some (AttrVal.other (Value.objV i))

/-- `marshall` over a whole record of placeholder values. -/
def marshallMap (pairs : List (String × Value)) : List (String × AttrVal) :=
  pairs.filterMap (fun p => (marshallValue p.2).map (fun av => (p.1, av)))

/-- Models `unmarshall` of `@aws-sdk/util-dynamodb` on one attribute. -/
def unmarshallValue : AttrVal → Value
  | .S v => v
  | .N n => Value.num (n.toInt?.getD 0)
  | .other v => v

/-- `unmarshall` over a whole raw item. -/
def unmarshallItem (item : RawItem) : Item :=
  item.map (fun p => (p.1, unmarshallValue p.2))

/-- The `UpdateItemCommandInput` fields populated by `insertOrUpdate`.
Optional fields are `none` when the code leaves them unset. -/
structure UpdateItemInput where
  TableName : String
  Key : RawKey
  ReturnValues : String
  UpdateExpression : Option String := none
  ExpressionAttributeNames : Option (List (String × String)) := none
  ExpressionAttributeValues : Option (List (String × AttrVal)) := none
deriving DecidableEq, Repr

/-- The filter callback of `insertOrUpdate`:
`(k) => k !== pk && k !== sk`.  When `sk` is `undefined`, `k !== sk`
holds for every string `k`. -/
def isNonKeyField (pk : String) (sk : Option String) (k : String) : Bool :=
  k != pk && (match sk with | some s => k != s | none => true)

/-- `insertOrUpdate` (src/index.ts lines 17-43) up to the point where the
request is handed to `ddbDocClient.send`: the built
`UpdateItemCommandInput`, or the synchronously thrown error. -/
def insertOrUpdateParams (tableName pk : String) (item : Item)
    (sk : Option String) : Except String UpdateItemInput :=
  let keys := item.map Prod.fst
  -- const itemKeys = Object.keys(item).filter((k) => k !== pk && k !== sk);
  let itemKeys := keys.filter (isNonKeyField pk sk)
  if itemKeys.length = keys.length then
    Except.error "No partition key is found"
  else
    let params : UpdateItemInput :=
      { TableName := tableName
        Key := [(pk, AttrVal.S (jsGet item pk))]
        ReturnValues := "ALL_NEW" }
    let params :=
      if itemKeys.length > 0 then
        { params with
          UpdateExpression := some ("SET " ++ String.intercalate ", "
            (itemKeys.enum.map (fun p => s!"#field{p.1} = :value{p.1}")))
          ExpressionAttributeNames := some
            (itemKeys.enum.map (fun p => (s!"#field{p.1}", p.2)))
          ExpressionAttributeValues := some (marshallMap
            (itemKeys.enum.map (fun p => (s!":value{p.1}", jsGet item p.2)))) }
      else params
    let params :=
      match sk with
      | some s =>
        -- if (sk && params.Key): the empty string is falsy in JavaScript
        if s ≠ "" then { params with Key := params.Key ++ [(s, AttrVal.S (jsGet item s))] }
        else params
      | none => params
    Except.ok params

/-- `insertOrUpdate` including the delegation to `ddbDocClient.send`;
the response type is opaque to the wrapper, hence polymorphic. -/
def insertOrUpdate {β : Type} (send : UpdateItemInput → β)
    (tableName pk : String) (item : Item) (sk : Option String) :
    Except String β :=
  (insertOrUpdateParams tableName pk item sk).map send

/-- The `DeleteItemCommand` input built by `deleteOne`. -/
structure DeleteItemInput where
  TableName : String
  Key : RawKey
deriving DecidableEq, Repr

/-- `deleteOne` (src/index.ts lines 54-60): the request it builds.  The
TypeScript annotation of `pkValue` is `string`, but annotations are
erased at runtime, so the parameter ranges over arbitrary values. -/
def deleteOneParams (tableName pk : String) (pkValue : Value) : DeleteItemInput :=
  { TableName := tableName
    Key := [(pk, AttrVal.S pkValue)] }

/-- `deleteOne` including the delegation to `ddbDocClient.send`. -/
def deleteOne {β : Type} (send : DeleteItemInput → β)
    (tableName pk : String) (pkValue : Value) : β :=
  send (deleteOneParams tableName pk pkValue)

/-- The `QueryCommand` input (from `@aws-sdk/lib-dynamodb`, the document
client: placeholder values are native values, not typed attributes)
built by `findOne` and `findMany`. -/
structure QueryInput where
  TableName : String
  KeyConditionExpression : String
  ExpressionAttributeValues : List (String × Value)
deriving DecidableEq, Repr

/-- A document-client query response: `Items` is absent or a list of
native items. -/
structure QueryResponse where
  Items : Option (List Item)
deriving DecidableEq, Repr

/-- `findOne` (src/index.ts lines 68-82): queries by partition-key
equality and returns the first item, or `none` (the `null` sentinel)
when `data.Items` is absent or empty. -/
def findOne (send : QueryInput → QueryResponse)
    (tableName pk : String) (pkValue : Value) : Option Item :=
  let params : QueryInput :=
    { TableName := tableName
      KeyConditionExpression := s!"{pk} = :u"
      ExpressionAttributeValues := [(":u", pkValue)] }
  let data := send params
  match data.Items with
  | none => none
  | some items => if items.length < 1 then none else items.head?

/-- `findMany` (src/index.ts lines 90-104): same query as `findOne`, but
returns the whole result list, normalizing "no results" to `[]`. -/
def findMany (send : QueryInput → QueryResponse)
    (tableName pk : String) (pkValue : Value) : List Item :=
  let params : QueryInput :=
    { TableName := tableName
      KeyConditionExpression := s!"{pk} = :u"
      ExpressionAttributeValues := [(":u", pkValue)] }
  let data := send params
  match data.Items with
  | none => []
  | some items => if items.length = 0 then [] else items

/-- The `ScanCommandInput` fields populated by the scan-based
operations; unset optional fields are `none`. -/
structure ScanInput where
  TableName : String
  FilterExpression : Option String := none
  ExpressionAttributeNames : Option (List (String × String)) := none
  ExpressionAttributeValues : Option (List (String × AttrVal)) := none
  Limit : Option Nat := none
  ExclusiveStartKey : Option RawKey := none
deriving DecidableEq, Repr

/-- A low-level scan response: raw items plus the continuation token. -/
structure ScanResponse where
  Items : Option (List RawItem)
  LastEvaluatedKey : Option RawKey := none
deriving DecidableEq, Repr

/-- The response handling repeated verbatim in `findManyByField`,
`findManyPlain`, `findOperated`, `findWithin` and `findAll`:
`if (!data || !data.Items || data.Items?.length < 1) [] else
data.Items.map(unmarshall)`. -/
def scanBatch (data : ScanResponse) : List Item :=
  match data.Items with
  | none => []
  | some items => if items.length < 1 then [] else items.map unmarshallItem

/-- `findManyByField` (src/index.ts lines 113-130): the scan request it
builds.  The filter value is wrapped as `{ S: value }` whatever its
runtime type. -/
def findManyByFieldParams (tableName field : String) (value : Value) : ScanInput :=
  { TableName := tableName
    FilterExpression := some s!"{field} = :u"
    ExpressionAttributeValues := some [(":u", AttrVal.S value)] }

/-- `findManyByField` including the send and response decoding. -/
def findManyByField (send : ScanInput → ScanResponse)
    (tableName field : String) (value : Value) : List Item :=
  scanBatch (send (findManyByFieldParams tableName field value))

/-- `findManyPlain` (src/index.ts lines 139-154): the scan request,
passing the caller's filter expression and placeholder values verbatim. -/
def findManyPlainParams (tableName filterExpression : String)
    (expressionAttributeValues : List (String × AttrVal)) : ScanInput :=
  { TableName := tableName
    FilterExpression := some filterExpression
    ExpressionAttributeValues := some expressionAttributeValues }

/-- `findManyPlain` including the send and response decoding. -/
def findManyPlain (send : ScanInput → ScanResponse)
    (tableName filterExpression : String)
    (expressionAttributeValues : List (String × AttrVal)) : List Item :=
  scanBatch (send (findManyPlainParams tableName filterExpression expressionAttributeValues))

/-- One of the five comparison operators accepted by `findOperated`. -/
inductive Op where
  | lt | le | eq | ge | gt
deriving DecidableEq, Repr

/-- The operator's literal spelling. -/
def opStr : Op → String
  | .lt => "<"
  | .le => "<="
  | .eq => "="
  | .ge => ">="
  | .gt => ">"

/-- The interpolation `${operators[k]}`: the operator's spelling, or the
string `"undefined"` when the key is absent (only reachable before
validation has run). -/
def opAt (operators : List (String × Op)) (k : String) : String :=
  match List.lookup k operators with
  | some op => opStr op
  | none => "undefined"

/-- The validation loop of `findOperated` (src/index.ts lines 164-171)
over the remaining filter keys, in key order: a missing operator or a
value whose `typeof` is neither `string` nor `number` throws. -/
def validateKeys (filter : Item) (operators : List (String × Op)) :
    List String → Except String Unit
  | [] => Except.ok ()
  | k :: rest =>
    if (List.lookup k operators).isNone then
      Except.error s!"Operator for {k} not found"
    else if jsTypeof (jsGet filter k) != "string" && jsTypeof (jsGet filter k) != "number" then
      Except.error s!"Value for {k} is not a string or number"
    else
      validateKeys filter operators rest

/-- `findOperated` (src/index.ts lines 162-177) up to the send: the
validated scan request, or the synchronously thrown error. -/
def findOperatedParams (tableName : String) (filter : Item)
    (operators : List (String × Op)) : Except String ScanInput :=
  let filterKeys := filter.map Prod.fst
  match validateKeys filter operators filterKeys with
  | Except.error e => Except.error e
  | Except.ok () =>
    Except.ok
      { TableName := tableName
        FilterExpression := some (String.intercalate " and "
          (filterKeys.enum.map (fun p => s!"#field{p.1} {opAt operators p.2} :value{p.1}")))
        ExpressionAttributeNames := some
          (filterKeys.enum.map (fun p => (s!"#field{p.1}", p.2)))
        ExpressionAttributeValues := some (marshallMap
          (filterKeys.enum.map (fun p => (s!":value{p.1}", jsGet filter p.2)))) }

/-- `findOperated` including the send and response decoding. -/
def findOperated (send : ScanInput → ScanResponse) (tableName : String)
    (filter : Item) (operators : List (String × Op)) : Except String (List Item) :=
  (findOperatedParams tableName filter operators).map (fun params => scanBatch (send params))

/-- The scan requests that actually reach the store for a parameter
builder that may throw: none on a synchronous error. -/
def issuedScans (p : Except String ScanInput) : List ScanInput :=
  match p with
  | Except.ok q => [q]
  | Except.error _ => []

/-- `findWithin` (src/index.ts lines 196-204): the scan request with the
`BETWEEN` filter; both bounds are rendered with a template literal into
number-typed (`N`) attributes. -/
def findWithinParams (tableName key : String) (start end_ : Int) : ScanInput :=
  { TableName := tableName
    FilterExpression := some s!"{key} BETWEEN :start AND :end"
    ExpressionAttributeValues := some
      [(":start", AttrVal.N (toString start)), (":end", AttrVal.N (toString end_))] }

/-- `findWithin` including the send and response decoding. -/
def findWithin (send : ScanInput → ScanResponse)
    (tableName key : String) (start end_ : Int) : List Item :=
  scanBatch (send (findWithinParams tableName key start end_))

/-- How a run of the `findAll` generator body ends: the loop exits
normally (a response had no continuation token), a send threw, or the
supplied page list ran out while the loop still demanded a page (a
modelling artifact for underspecified stores). -/
inductive GenOutcome where
  | normal
  | raised (e : String)
  | exhausted
deriving DecidableEq, Repr

/-- A run of the `findAll` generator body: the scan requests it issued,
the batches it yielded, and how it ended. -/
structure GenRun where
  requests : List ScanInput
  batches : List (List Item)
  outcome : GenOutcome
deriving DecidableEq, Repr

/-- The do/while loop inside `findAll`'s `try` block (src/index.ts lines
227-238), driven by a list of page outcomes the store returns in order.
Each iteration sends a scan with the fixed `TableName` and `Limit` and
the current `ExclusiveStartKey`, yields the decoded batch, then loops
while the response carried a `LastEvaluatedKey` (any key object is
truthy in JavaScript). -/
def findAllLoop (tableName : String) (limit : Nat) (startKey : Option RawKey) :
    List (Except String ScanResponse) → GenRun
  | [] => { requests := [], batches := [], outcome := GenOutcome.exhausted }
  | page :: rest =>
    let params : ScanInput :=
      { TableName := tableName, Limit := some limit, ExclusiveStartKey := startKey }
    match page with
    | Except.error e =>
      { requests := [params], batches := [], outcome := GenOutcome.raised e }
    | Except.ok data =>
      let batch := scanBatch data
      match data.LastEvaluatedKey with
      | none => { requests := [params], batches := [batch], outcome := GenOutcome.normal }
      | some k =>
        let r := findAllLoop tableName limit (some k) rest
        { requests := params :: r.requests, batches := batch :: r.batches, outcome := r.outcome }

/-- `findAll` (src/index.ts lines 220-242): the loop wrapped in
`try { ... } catch (e) { console.log(e) }` — a raised error is logged
(second component) and the generator then returns normally. -/
def findAll (tableName : String) (limit : Nat)
    (pages : List (Except String ScanResponse)) : GenRun × List String :=
  let r := findAllLoop tableName limit none pages
  match r.outcome with
  | GenOutcome.raised e => ({ r with outcome := GenOutcome.normal }, [e])
  | _ => (r, [])

/-- The prefix of responses the `findAll` loop consumes: everything up
to and including the first response that carries no continuation token. -/
def pagesConsumed : List ScanResponse → List ScanResponse
  | [] => []
  | p :: rest =>
    match p.LastEvaluatedKey with
    | none => [p]
    | some _ => p :: pagesConsumed rest

/-- The configuration a `DynamoDBClient` was constructed with
(src/dynamodb-client.ts): a region and optionally a credential pair. -/
structure ClientConfig where
  region : Option String
  credentials : Option (String × String)
deriving DecidableEq, Repr

/-- The mutable module-level state of `dynamodb-client.ts` and
`dynamodb-doc.ts`: the constructed client objects (in creation order,
standing in for the heap), the module variables, the index the
`ddbClient` binding currently refers to, and the index of the client the
`DynamoDBDocumentClient` captured when `dynamodb-doc.ts` ran. -/
structure ModuleState where
  clients : List ClientConfig
  regionVar : Option String
  accessKeyVar : String
  secretVar : String
  ddbClient : Nat
  ddbDocClient : Nat
deriving DecidableEq, Repr

/-- Module initialization: `dynamodb-client.ts` constructs one client
from the environment region, then `dynamodb-doc.ts` runs
`DynamoDBDocumentClient.from(ddbClient, translateConfig)`, capturing a
reference to that very client object. -/
def initModules (envRegion : Option String) (envAccess envSecret : String) : ModuleState :=
  { clients := [{ region := envRegion, credentials := none }]
    regionVar := envRegion
    accessKeyVar := envAccess
    secretVar := envSecret
    ddbClient := 0
    ddbDocClient := 0 }

/-- `setRegion` (src/dynamodb-client.ts lines 8-10; the variant with
credential state also stores the region variable and passes the stored
credentials): constructs a fresh client and rebinds `ddbClient` to it.
The document client is not rebuilt. -/
def setRegion (region : String) (s : ModuleState) : ModuleState :=
  { s with
    regionVar := some region
    clients := s.clients ++ [{ region := some region
                               credentials := some (s.accessKeyVar, s.secretVar) }]
    ddbClient := s.clients.length }

/-- `setAccessKey`: stores the credential pair and rebinds `ddbClient`
to a fresh client.  The document client is not rebuilt. -/
def setAccessKey (accessKeyId secretAccessKey : String) (s : ModuleState) : ModuleState :=
  { s with
    accessKeyVar := accessKeyId
    secretVar := secretAccessKey
    clients := s.clients ++ [{ region := s.regionVar
                               credentials := some (accessKeyId, secretAccessKey) }]
    ddbClient := s.clients.length }

/-- The configuration a facade request is sent with: every operation in
`src/index.ts` calls `ddbDocClient.send`, and the document client
delegates to the client object it captured at construction time. -/
def requestConfig (s : ModuleState) : Option ClientConfig :=
  s.clients.get? s.ddbDocClient

/-- A store whose query responses carry no `Items` field. -/
def emptyQuerySend : QueryInput → QueryResponse :=
  fun _ => { Items := none }

/-- A store whose scan responses carry an empty `Items` list and no
continuation token. -/
def emptyScanSend : ScanInput → ScanResponse :=
  fun _ => { Items := some [] }

/-- A store whose query responses all carry the one given item. -/
def singletonQuerySend (x : Item) : QueryInput → QueryResponse :=
  fun _ => { Items := some [x] }

end ExpressDynamo

namespace ExpressDynamo

/-- C7: the concrete upsert of the spec: item `{id: "1", name: "a"}` with
partition key `id` builds an update keyed on `id = "1"` whose update
expression sets exactly the single non-key field `name` to `"a"`, and the
request handed to the store is exactly that one. -/
theorem insertOrUpdate_concrete_request (table : String) (β : Type)
    (send : UpdateItemInput → β) :
    insertOrUpdateParams table "id"
        [("id", Value.str "1"), ("name", Value.str "a")] none =
      Except.ok
        { TableName := table
          Key := [("id", AttrVal.S (Value.str "1"))]
          ReturnValues := "ALL_NEW"
          UpdateExpression := some "SET #field0 = :value0"
          ExpressionAttributeNames := some [("#field0", "name")]
          ExpressionAttributeValues := some [(":value0", AttrVal.S (Value.str "a"))] } ∧
    insertOrUpdate send table "id"
        [("id", Value.str "1"), ("name", Value.str "a")] none =
      Except.ok (send
        { TableName := table
          Key := [("id", AttrVal.S (Value.str "1"))]
          ReturnValues := "ALL_NEW"
          UpdateExpression := some "SET #field0 = :value0"
          ExpressionAttributeNames := some [("#field0", "name")]
          ExpressionAttributeValues := some [(":value0", AttrVal.S (Value.str "a"))] }) := by
  constructor <;> rfl

end ExpressDynamo

namespace ExpressDynamo

/-- A filter keeps a list of its original length exactly when every
element satisfies the predicate. -/
lemma length_filter_eq_length_iff {α : Type} (p : α → Bool) (l : List α) :
    (l.filter p).length = l.length ↔ ∀ a ∈ l, p a := by
  constructor
  · intro h
    exact List.filter_eq_self.mp ((List.filter_sublist l).eq_of_length h)
  · intro h
    rw [List.filter_eq_self.mpr h]

/-- Unfolding of the `insertOrUpdate` filter callback. -/
lemma isNonKeyField_iff (pk : String) (sk : Option String) (k : String) :
    isNonKeyField pk sk k = true ↔ k ≠ pk ∧ ∀ s, sk = some s → k ≠ s := by
  cases sk with
  | none => simp [isNonKeyField]
  | some s =>
    simp only [isNonKeyField, Bool.and_eq_true, bne_iff_ne]
    constructor
    · rintro ⟨h1, h2⟩
      refine ⟨h1, fun s' hs' => ?_⟩
      injection hs' with h'
      subst h'
      exact h2
    · rintro ⟨h1, h2⟩
      exact ⟨h1, h2 s rfl⟩

/-- `insertOrUpdate` throws `No partition key is found` exactly when the
item contains neither the partition-key field nor the sort-key field. -/
lemma insertOrUpdateParams_error_iff (t pk : String) (item : Item) (sk : Option String) :
    insertOrUpdateParams t pk item sk = Except.error "No partition key is found" ↔
      ∀ k ∈ item.map Prod.fst, k ≠ pk ∧ ∀ s, sk = some s → k ≠ s := by
  simp only [insertOrUpdateParams]
  split
  case isTrue h =>
    constructor
    · intro _ k hk
      rw [← isNonKeyField_iff]
      exact (length_filter_eq_length_iff _ _).mp h k hk
    · intro _
      rfl
  case isFalse h =>
    constructor
    · intro hcon
      exact Except.noConfusion hcon
    · intro hall
      exfalso
      apply h
      apply (length_filter_eq_length_iff _ _).mpr
      intro k hk
      exact (isNonKeyField_iff pk sk k).mpr (hall k hk)

/-- When every field of the item is a key field and the item is
nonempty, `insertOrUpdate` passes validation and builds a request with
no update expression. -/
lemma insertOrUpdateParams_only_keys (t pk : String) (item : Item) (sk : Option String)
    (hne : item ≠ []) (hkeys : ∀ k ∈ item.map Prod.fst, k = pk ∨ sk = some k) :
    ∃ q, insertOrUpdateParams t pk item sk = Except.ok q ∧ q.UpdateExpression = none := by
  have hfil : (item.map Prod.fst).filter (isNonKeyField pk sk) = [] := by
    apply List.filter_eq_nil_iff.mpr
    intro k hk
    rcases hkeys k hk with rfl | hsk
    · simp [isNonKeyField]
    · cases sk with
      | none => cases hsk
      | some s =>
        injection hsk with h'
        subst h'
        simp [isNonKeyField]
  have hlen : ¬ ((0 : Nat) = (item.map Prod.fst).length) := by
    intro h0
    apply hne
    apply List.length_eq_zero.mp
    simpa using h0.symm
  cases sk with
  | none =>
    refine ⟨{ TableName := t, Key := [(pk, AttrVal.S (jsGet item pk))],
              ReturnValues := "ALL_NEW" }, ?_, rfl⟩
    simp only [insertOrUpdateParams, hfil, List.length_nil]
    rw [if_neg hlen]
    simp
  | some s =>
    by_cases hs : s = ""
    · refine ⟨{ TableName := t, Key := [(pk, AttrVal.S (jsGet item pk))],
                ReturnValues := "ALL_NEW" }, ?_, rfl⟩
      simp only [insertOrUpdateParams, hfil, List.length_nil]
      rw [if_neg hlen]
      simp [hs]
    · refine ⟨{ TableName := t,
                Key := [(pk, AttrVal.S (jsGet item pk)), (s, AttrVal.S (jsGet item s))],
                ReturnValues := "ALL_NEW" }, ?_, rfl⟩
      simp only [insertOrUpdateParams, hfil, List.length_nil]
      rw [if_neg hlen]
      simp [hs]

/-- The `Key` of every successfully built upsert request consists of the
partition key and possibly the sort key, both `S`-typed. -/
lemma insertOrUpdateParams_key_shape (t pk : String) (item : Item) (sk : Option String)
    (q : UpdateItemInput) (hq : insertOrUpdateParams t pk item sk = Except.ok q) :
    q.Key = [(pk, AttrVal.S (jsGet item pk))] ∨
    ∃ s, sk = some s ∧
      q.Key = [(pk, AttrVal.S (jsGet item pk)), (s, AttrVal.S (jsGet item s))] := by
  cases sk with
  | none =>
    simp only [insertOrUpdateParams] at hq
    by_cases hc : (List.filter (isNonKeyField pk none) (List.map Prod.fst item)).length =
        (List.map Prod.fst item).length
    · rw [if_pos hc] at hq
      exact Except.noConfusion hq
    · rw [if_neg hc] at hq
      by_cases h0 : (List.filter (isNonKeyField pk none) (List.map Prod.fst item)).length > 0
      · rw [if_pos h0] at hq
        have hx := (Except.ok.inj hq).symm
        subst hx
        exact Or.inl rfl
      · rw [if_neg h0] at hq
        have hx := (Except.ok.inj hq).symm
        subst hx
        exact Or.inl rfl
  | some s =>
    simp only [insertOrUpdateParams] at hq
    by_cases hc : (List.filter (isNonKeyField pk (some s)) (List.map Prod.fst item)).length =
        (List.map Prod.fst item).length
    · rw [if_pos hc] at hq
      exact Except.noConfusion hq
    · rw [if_neg hc] at hq
      by_cases h0 : (List.filter (isNonKeyField pk (some s)) (List.map Prod.fst item)).length > 0
      · rw [if_pos h0] at hq
        by_cases hs : s = ""
        · rw [if_neg (by simp [hs])] at hq
          have hx := (Except.ok.inj hq).symm
          subst hx
          exact Or.inl rfl
        · rw [if_pos hs] at hq
          have hx := (Except.ok.inj hq).symm
          subst hx
          exact Or.inr ⟨s, rfl, rfl⟩
      · rw [if_neg h0] at hq
        by_cases hs : s = ""
        · rw [if_neg (by simp [hs])] at hq
          have hx := (Except.ok.inj hq).symm
          subst hx
          exact Or.inl rfl
        · rw [if_pos hs] at hq
          have hx := (Except.ok.inj hq).symm
          subst hx
          exact Or.inr ⟨s, rfl, rfl⟩

end ExpressDynamo

namespace ExpressDynamo

/-- C9: `insertOrUpdate` raises its synchronous validation error
(message `No partition key is found`) exactly when the item contains
neither the partition-key field nor the sort-key field; an item
consisting of only key fields passes validation and a request is issued
whose update carries no update expression. -/
theorem insertOrUpdate_error_exactly_when_no_key (t pk : String) (item : Item)
    (sk : Option String) :
    (insertOrUpdateParams t pk item sk = Except.error "No partition key is found" ↔
      pk ∉ item.map Prod.fst ∧ ∀ s, sk = some s → s ∉ item.map Prod.fst) ∧
    ((item ≠ [] ∧ ∀ k ∈ item.map Prod.fst, k = pk ∨ sk = some k) →
      ∃ q, insertOrUpdateParams t pk item sk = Except.ok q ∧ q.UpdateExpression = none ∧
        ∀ (β : Type) (send : UpdateItemInput → β),
          insertOrUpdate send t pk item sk = Except.ok (send q)) := by
  constructor
  · rw [insertOrUpdateParams_error_iff]
    constructor
    · intro h
      exact ⟨fun hpk => (h pk hpk).1 rfl, fun s hs hsmem => (h s hsmem).2 s hs rfl⟩
    · rintro ⟨h1, h2⟩ k hk
      exact ⟨fun he => h1 (he ▸ hk), fun s hs he => h2 s hs (he ▸ hk)⟩
  · rintro ⟨hne, hkeys⟩
    obtain ⟨q, hq, hu⟩ := insertOrUpdateParams_only_keys t pk item sk hne hkeys
    refine ⟨q, hq, hu, fun β send => ?_⟩
    unfold insertOrUpdate
    rw [hq]
    rfl

/-- Witness for C9 at concrete inputs: the empty item throws, and an
item holding only its partition and sort key fields yields a request
without an update expression that is handed to the store. -/
theorem insertOrUpdate_error_exactly_when_no_key_witness :
    (insertOrUpdateParams "tbl" "id" ([] : Item) none =
      Except.error "No partition key is found") ∧
    ∃ q, insertOrUpdateParams "tbl" "id"
          [("id", Value.str "1"), ("sort", Value.str "2")] (some "sort") = Except.ok q ∧
        q.UpdateExpression = none ∧
        ∀ (β : Type) (send : UpdateItemInput → β),
          insertOrUpdate send "tbl" "id"
            [("id", Value.str "1"), ("sort", Value.str "2")] (some "sort") =
              Except.ok (send q) :=
  ⟨(insertOrUpdate_error_exactly_when_no_key "tbl" "id" [] none).1.mpr (by simp),
   (insertOrUpdate_error_exactly_when_no_key "tbl" "id"
      [("id", Value.str "1"), ("sort", Value.str "2")] (some "sort")).2
      ⟨by simp, by decide⟩⟩

/-- C1 counterexample: `insertOrUpdate` on the item `{id: "1"}`, whose
fields are exactly the key fields, does not raise any validation error;
it successfully builds an update request (with no update expression). -/
theorem insertOrUpdate_keyfields_only_counterexample :
    insertOrUpdateParams "t" "id" [("id", Value.str "1")] none =
      Except.ok { TableName := "t"
                  Key := [("id", AttrVal.S (Value.str "1"))]
                  ReturnValues := "ALL_NEW" } := by
  rfl

/-- C1 amended: for every item whose fields are exactly the key fields
(and nonempty), `insertOrUpdate` raises no error; a request with no
update expression is built and sent. -/
theorem insertOrUpdate_keyfields_only_no_error (t pk : String) (item : Item)
    (sk : Option String) (hne : item ≠ [])
    (hkeys : ∀ k ∈ item.map Prod.fst, k = pk ∨ sk = some k) :
    (∀ msg, insertOrUpdateParams t pk item sk ≠ Except.error msg) ∧
    ∃ q, insertOrUpdateParams t pk item sk = Except.ok q ∧ q.UpdateExpression = none := by
  obtain ⟨q, hq, hu⟩ := insertOrUpdateParams_only_keys t pk item sk hne hkeys
  refine ⟨fun msg h => ?_, ⟨q, hq, hu⟩⟩
  rw [hq] at h
  exact Except.noConfusion h

/-- Witness for the amended C1 at the concrete item `{id: "1"}`. -/
theorem insertOrUpdate_keyfields_only_no_error_witness :
    (∀ msg, insertOrUpdateParams "t" "id" [("id", Value.str "1")] none ≠ Except.error msg) ∧
    ∃ q, insertOrUpdateParams "t" "id" [("id", Value.str "1")] none = Except.ok q ∧
      q.UpdateExpression = none :=
  insertOrUpdate_keyfields_only_no_error "t" "id" [("id", Value.str "1")] none
    (by simp) (by decide)

end ExpressDynamo

namespace ExpressDynamo

/-- C2: the claim fails on the code.  `ddbDocClient` is constructed once
at module load from the then-current `ddbClient` object; `setRegion`
rebinds the `ddbClient` variable to a fresh client but never rebuilds
the document client, so requests issued after `setRegion` (all facade
operations send through `ddbDocClient`) still use the original
configuration, even though the `ddbClient` binding now points at a
client with the new region.  `setAccessKey` behaves the same way. -/
theorem setRegion_does_not_affect_requests :
    requestConfig (setRegion "eu-west-1" (initModules (some "us-east-1") "AK" "SK")) =
      some { region := some "us-east-1", credentials := none } ∧
    requestConfig (setRegion "eu-west-1" (initModules (some "us-east-1") "AK" "SK")) =
      requestConfig (initModules (some "us-east-1") "AK" "SK") ∧
    ((setRegion "eu-west-1" (initModules (some "us-east-1") "AK" "SK")).clients.get?
        (setRegion "eu-west-1" (initModules (some "us-east-1") "AK" "SK")).ddbClient =
      some { region := some "eu-west-1", credentials := some ("AK", "SK") }) ∧
    requestConfig (setAccessKey "AK2" "SK2" (initModules (some "us-east-1") "AK" "SK")) =
      requestConfig (initModules (some "us-east-1") "AK" "SK") := by
  exact ⟨rfl, rfl, rfl, rfl⟩

/-- C3: when a scan request inside the `findAll` loop fails, the
`try`/`catch` logs the error, the generator's sequence ends normally,
and the error is never propagated to the consumer. -/
theorem findAll_swallows_errors (t : String) (l : Nat)
    (pages : List (Except String ScanResponse)) (e : String)
    (h : (findAllLoop t l none pages).outcome = GenOutcome.raised e) :
    (findAll t l pages).1.outcome = GenOutcome.normal ∧
    (findAll t l pages).2 = [e] ∧
    ∀ e', (findAll t l pages).1.outcome ≠ GenOutcome.raised e' := by
  have hfa : findAll t l pages =
      ({ findAllLoop t l none pages with outcome := GenOutcome.normal }, [e]) := by
    simp only [findAll]
    rw [h]
  rw [hfa]
  exact ⟨rfl, rfl, fun e' hcon => GenOutcome.noConfusion hcon⟩

/-- Witness for C3: a store whose first page succeeds with a
continuation token and whose second scan fails with `boom`. -/
theorem findAll_swallows_errors_witness :
    (findAll "t" 2
        [Except.ok { Items := some [[("a", AttrVal.S (Value.str "x"))]]
                     LastEvaluatedKey := some [] },
         Except.error "boom"]).1.outcome = GenOutcome.normal ∧
    (findAll "t" 2
        [Except.ok { Items := some [[("a", AttrVal.S (Value.str "x"))]]
                     LastEvaluatedKey := some [] },
         Except.error "boom"]).2 = ["boom"] ∧
    ∀ e', (findAll "t" 2
        [Except.ok { Items := some [[("a", AttrVal.S (Value.str "x"))]]
                     LastEvaluatedKey := some [] },
         Except.error "boom"]).1.outcome ≠ GenOutcome.raised e' :=
  findAll_swallows_errors "t" 2
    [Except.ok { Items := some [[("a", AttrVal.S (Value.str "x"))]]
                 LastEvaluatedKey := some [] },
     Except.error "boom"] "boom" rfl

end ExpressDynamo

namespace ExpressDynamo

/-- On a failure-free store, the `findAll` loop yields exactly the
decoded batches of the pages up to and including the first page without
a continuation token, issues one request per consumed page — each with
the fixed table name and limit — and exits normally as soon as some page
carries no token. -/
lemma findAllLoop_ok_spec (t : String) (l : Nat) (pages : List ScanResponse) :
    ∀ sk : Option RawKey,
      (findAllLoop t l sk (pages.map Except.ok)).batches =
        (pagesConsumed pages).map scanBatch ∧
      (findAllLoop t l sk (pages.map Except.ok)).requests.length =
        (pagesConsumed pages).length ∧
      (∀ req ∈ (findAllLoop t l sk (pages.map Except.ok)).requests,
        req.Limit = some l ∧ req.TableName = t) ∧
      ((∃ p ∈ pages, p.LastEvaluatedKey = none) →
        (findAllLoop t l sk (pages.map Except.ok)).outcome = GenOutcome.normal) := by
  induction pages with
  | nil =>
    intro sk
    simp [findAllLoop, pagesConsumed]
  | cons p rest ih =>
    intro sk
    cases hk : p.LastEvaluatedKey with
    | none =>
      refine ⟨?_, ?_, ?_, ?_⟩
      · simp [findAllLoop, pagesConsumed, hk]
      · simp [findAllLoop, pagesConsumed, hk]
      · intro req hreq
        simp only [List.map_cons, findAllLoop, hk] at hreq
        rcases List.mem_singleton.mp hreq with rfl
        exact ⟨rfl, rfl⟩
      · intro _
        simp [findAllLoop, hk]
    | some k =>
      obtain ⟨ihb, ihr, ihreq, ihout⟩ := ih (some k)
      refine ⟨?_, ?_, ?_, ?_⟩
      · simp [findAllLoop, pagesConsumed, hk, ihb]
      · simp [findAllLoop, pagesConsumed, hk, ihr]
      · intro req hreq
        simp only [List.map_cons, findAllLoop, hk] at hreq
        rcases List.mem_cons.mp hreq with rfl | hreq'
        · exact ⟨rfl, rfl⟩
        · exact ihreq req hreq'
      · rintro ⟨p', hp', hnone⟩
        rcases List.mem_cons.mp hp' with rfl | hp'mem
        · rw [hk] at hnone
          exact Option.noConfusion hnone
        · have hrec := ihout ⟨p', hp'mem, hnone⟩
          simp [findAllLoop, hk, hrec]

/-- Every page the `findAll` loop consumes comes from the store's page
list. -/
lemma pagesConsumed_subset (pages : List ScanResponse) :
    ∀ p ∈ pagesConsumed pages, p ∈ pages := by
  induction pages with
  | nil =>
    intro p hp
    simp [pagesConsumed] at hp
  | cons q rest ih =>
    intro p hp
    cases hk : q.LastEvaluatedKey with
    | none =>
      simp only [pagesConsumed, hk] at hp
      rw [List.mem_singleton.mp hp]
      exact List.mem_cons_self q rest
    | some k =>
      simp only [pagesConsumed, hk] at hp
      rcases List.mem_cons.mp hp with rfl | hp'
      · exact List.mem_cons_self p rest
      · exact List.mem_cons_of_mem q (ih p hp')

/-- A decoded batch is no longer than the page's raw item list. -/
lemma scanBatch_length_le (p : ScanResponse) (l : Nat)
    (h : ∀ items, p.Items = some items → items.length ≤ l) :
    (scanBatch p).length ≤ l := by
  unfold scanBatch
  cases hi : p.Items with
  | none => simp
  | some items =>
    by_cases hlen : items.length < 1
    · simp [hlen]
    · simpa [hlen] using h items hi

/-- C4: on a failure-free store honoring the `Limit` contract, `findAll`
requests every page with `Limit` equal to the requested batch size, so
every yielded batch has at most that many items, and it stops yielding
exactly when a scan response carries no continuation token: the batches
are the decoded pages up to and including the first token-free one, one
request per consumed page, and the run ends normally. -/
theorem findAll_paging (t : String) (l : Nat) (pages : List ScanResponse)
    (hstop : ∃ p ∈ pages, p.LastEvaluatedKey = none)
    (hcontract : ∀ p ∈ pages, ∀ items, p.Items = some items → items.length ≤ l) :
    (∀ req ∈ (findAll t l (pages.map Except.ok)).1.requests, req.Limit = some l) ∧
    (findAll t l (pages.map Except.ok)).1.batches = (pagesConsumed pages).map scanBatch ∧
    (findAll t l (pages.map Except.ok)).1.requests.length = (pagesConsumed pages).length ∧
    (∀ b ∈ (findAll t l (pages.map Except.ok)).1.batches, b.length ≤ l) ∧
    (findAll t l (pages.map Except.ok)).1.outcome = GenOutcome.normal := by
  obtain ⟨hb, hr, hreq, hout⟩ := findAllLoop_ok_spec t l pages none
  have hnorm := hout hstop
  have hfa : findAll t l (pages.map Except.ok) =
      (findAllLoop t l none (pages.map Except.ok), []) := by
    simp only [findAll]
    rw [hnorm]
  rw [hfa]
  refine ⟨fun req hreq' => (hreq req hreq').1, hb, hr, ?_, hnorm⟩
  intro b hb'
  rw [hb] at hb'
  obtain ⟨p, hp, rfl⟩ := List.mem_map.mp hb'
  exact scanBatch_length_le p l (hcontract p (pagesConsumed_subset pages p hp))

/-- Witness for C4: a two-page store whose first page carries one item
and a continuation token and whose second page ends the scan. -/
theorem findAll_paging_witness :
    (∀ req ∈ (findAll "t" 1 ([{ Items := some [[("a", AttrVal.S (Value.str "x"))]]
                                LastEvaluatedKey := some [] },
                              { Items := none
                                LastEvaluatedKey := none }].map Except.ok)).1.requests,
      req.Limit = some 1) ∧
    (findAll "t" 1 ([{ Items := some [[("a", AttrVal.S (Value.str "x"))]]
                       LastEvaluatedKey := some [] },
                     { Items := none
                       LastEvaluatedKey := none }].map Except.ok)).1.batches =
      (pagesConsumed [{ Items := some [[("a", AttrVal.S (Value.str "x"))]]
                        LastEvaluatedKey := some [] },
                      { Items := none
                        LastEvaluatedKey := none }]).map scanBatch ∧
    (findAll "t" 1 ([{ Items := some [[("a", AttrVal.S (Value.str "x"))]]
                       LastEvaluatedKey := some [] },
                     { Items := none
                       LastEvaluatedKey := none }].map Except.ok)).1.requests.length =
      (pagesConsumed [{ Items := some [[("a", AttrVal.S (Value.str "x"))]]
                        LastEvaluatedKey := some [] },
                      { Items := none
                        LastEvaluatedKey := none }]).length ∧
    (∀ b ∈ (findAll "t" 1 ([{ Items := some [[("a", AttrVal.S (Value.str "x"))]]
                              LastEvaluatedKey := some [] },
                            { Items := none
                              LastEvaluatedKey := none }].map Except.ok)).1.batches,
      b.length ≤ 1) ∧
    (findAll "t" 1 ([{ Items := some [[("a", AttrVal.S (Value.str "x"))]]
                       LastEvaluatedKey := some [] },
                     { Items := none
                       LastEvaluatedKey := none }].map Except.ok)).1.outcome =
      GenOutcome.normal :=
  findAll_paging "t" 1
    [{ Items := some [[("a", AttrVal.S (Value.str "x"))]]
       LastEvaluatedKey := some [] },
     { Items := none
       LastEvaluatedKey := none }]
    (by
      refine ⟨{ Items := none, LastEvaluatedKey := none }, ?_, rfl⟩
      simp)
    (by
      intro p hp items hitems
      rcases List.mem_cons.mp hp with rfl | hp'
      · obtain rfl : items = [[("a", AttrVal.S (Value.str "x"))]] := by
          simpa using hitems.symm
        simp
      · rcases List.mem_cons.mp hp' with rfl | hp''
        · exact Option.noConfusion hitems
        · cases hp'')

end ExpressDynamo

namespace ExpressDynamo

/-- The shared scan response handling sends an absent or empty `Items`
to the empty list. -/
lemma scanBatch_eq_nil (data : ScanResponse)
    (h : data.Items = none ∨ data.Items = some []) : scanBatch data = [] := by
  unfold scanBatch
  rcases h with h | h <;> simp [h]

/-- C5: on an empty result set `findOne` returns the null sentinel while
`findMany`, `findManyByField`, `findManyPlain`, `findOperated` and
`findWithin` all return the empty list (never null — their result type
is a plain list); on a non-empty result `findOne` returns the first
item. -/
theorem find_empty_results_normalized
    (qsend : QueryInput → QueryResponse) (ssend : ScanInput → ScanResponse)
    (t pk field fe key : String) (pkValue v : Value)
    (eav : List (String × AttrVal)) (filter : Item) (ops : List (String × Op))
    (a b : Int)
    (hq : ∀ q, (qsend q).Items = none ∨ (qsend q).Items = some [])
    (hs : ∀ q, (ssend q).Items = none ∨ (ssend q).Items = some [])
    (hval : validateKeys filter ops (filter.map Prod.fst) = Except.ok ()) :
    findOne qsend t pk pkValue = none ∧
    findMany qsend t pk pkValue = [] ∧
    findManyByField ssend t field v = [] ∧
    findManyPlain ssend t fe eav = [] ∧
    findOperated ssend t filter ops = Except.ok [] ∧
    findWithin ssend t key a b = [] ∧
    ∀ (qsend' : QueryInput → QueryResponse) (x : Item) (xs : List Item),
      (∀ q, (qsend' q).Items = some (x :: xs)) →
      findOne qsend' t pk pkValue = some x := by
  refine ⟨?_, ?_, ?_, ?_, ?_, ?_, ?_⟩
  · unfold findOne
    rcases hq { TableName := t, KeyConditionExpression := s!"{pk} = :u",
                ExpressionAttributeValues := [(":u", pkValue)] } with h | h <;> simp [h]
  · unfold findMany
    rcases hq { TableName := t, KeyConditionExpression := s!"{pk} = :u",
                ExpressionAttributeValues := [(":u", pkValue)] } with h | h <;> simp [h]
  · exact scanBatch_eq_nil _ (hs _)
  · exact scanBatch_eq_nil _ (hs _)
  · simp only [findOperated, findOperatedParams]
    rw [hval]
    simp only [Except.map]
    rw [scanBatch_eq_nil _ (hs _)]
  · exact scanBatch_eq_nil _ (hs _)
  · intro qsend' x xs hne
    unfold findOne
    simp [hne { TableName := t, KeyConditionExpression := s!"{pk} = :u",
                ExpressionAttributeValues := [(":u", pkValue)] }]

/-- Witness for C5 on concrete stores: an item-less store, an
empty-page store, and a one-item store. -/
theorem find_empty_results_normalized_witness :
    findOne emptyQuerySend "t" "id" (Value.str "1") = none ∧
    findMany emptyQuerySend "t" "id" (Value.str "1") = [] ∧
    findManyByField emptyScanSend "t" "f" (Value.str "x") = [] ∧
    findManyPlain emptyScanSend "t" "a = :u" [(":u", AttrVal.S (Value.str "x"))] = [] ∧
    findOperated emptyScanSend "t" [("f", Value.str "v")] [("f", Op.eq)] = Except.ok [] ∧
    findWithin emptyScanSend "t" "age" 1 2 = [] ∧
    findOne (singletonQuerySend [("id", Value.str "1")]) "t" "id" (Value.str "1") =
      some [("id", Value.str "1")] := by
  obtain ⟨h1, h2, h3, h4, h5, h6, h7⟩ :=
    find_empty_results_normalized emptyQuerySend emptyScanSend "t" "id" "f" "a = :u" "age"
      (Value.str "1") (Value.str "x") [(":u", AttrVal.S (Value.str "x"))]
      [("f", Value.str "v")] [("f", Op.eq)] 1 2
      (fun _ => Or.inl rfl) (fun _ => Or.inr rfl) rfl
  exact ⟨h1, h2, h3, h4, h5, h6,
    h7 (singletonQuerySend [("id", Value.str "1")]) [("id", Value.str "1")] []
      (fun _ => rfl)⟩

/-- The validation loop of `findOperated` throws as soon as some key of
the filter lacks an operator or maps to a non-scalar value. -/
lemma validateKeys_error_of_bad (filter : Item) (ops : List (String × Op)) :
    ∀ keys : List String,
      (∃ k ∈ keys, List.lookup k ops = none ∨
        (jsTypeof (jsGet filter k) ≠ "string" ∧ jsTypeof (jsGet filter k) ≠ "number")) →
      ∃ msg, validateKeys filter ops keys = Except.error msg := by
  intro keys
  induction keys with
  | nil =>
    rintro ⟨k, hk, _⟩
    simp at hk
  | cons k rest ih =>
    rintro ⟨k', hk', hbad⟩
    by_cases h1 : (List.lookup k ops).isNone
    · exact ⟨s!"Operator for {k} not found", by simp [validateKeys, h1]⟩
    · by_cases h2 : jsTypeof (jsGet filter k) != "string" &&
          jsTypeof (jsGet filter k) != "number"
      · exact ⟨s!"Value for {k} is not a string or number", by simp [validateKeys, h1, h2]⟩
      · rcases List.mem_cons.mp hk' with rfl | hrest
        · exfalso
          rcases hbad with hb | hb
          · exact h1 (by simp [hb])
          · exact h2 (by simp [bne_iff_ne, hb.1, hb.2])
        · obtain ⟨msg, hmsg⟩ := ih ⟨k', hrest, hbad⟩
          refine ⟨msg, ?_⟩
          simpa [validateKeys, h1, h2] using hmsg

/-- C6: `findOperated` raises its validation error synchronously — for
every store — whenever some filter field has no operator or a value that
is neither a string nor a number; no scan request is issued. -/
theorem findOperated_validates_before_send (t : String) (filter : Item)
    (ops : List (String × Op))
    (h : ∃ k ∈ filter.map Prod.fst, List.lookup k ops = none ∨
      (jsTypeof (jsGet filter k) ≠ "string" ∧ jsTypeof (jsGet filter k) ≠ "number")) :
    ∃ msg, findOperatedParams t filter ops = Except.error msg ∧
      issuedScans (findOperatedParams t filter ops) = [] ∧
      ∀ send, findOperated send t filter ops = Except.error msg := by
  obtain ⟨msg, hmsg⟩ := validateKeys_error_of_bad filter ops (filter.map Prod.fst) h
  have hp : findOperatedParams t filter ops = Except.error msg := by
    simp only [findOperatedParams]
    rw [hmsg]
  exact ⟨msg, hp, by simp [issuedScans, hp],
    fun send => by simp [findOperated, hp, Except.map]⟩

/-- Witness for C6: a field without an operator, and a field whose value
is a nested object. -/
theorem findOperated_validates_before_send_witness :
    (∃ msg, findOperatedParams "t" [("f", Value.str "x")] ([] : List (String × Op)) =
        Except.error msg ∧
      issuedScans (findOperatedParams "t" [("f", Value.str "x")] []) = [] ∧
      ∀ send, findOperated send "t" [("f", Value.str "x")] [] = Except.error msg) ∧
    (∃ msg, findOperatedParams "t" [("f", Value.objV 0)] [("f", Op.eq)] =
        Except.error msg ∧
      issuedScans (findOperatedParams "t" [("f", Value.objV 0)] [("f", Op.eq)]) = [] ∧
      ∀ send, findOperated send "t" [("f", Value.objV 0)] [("f", Op.eq)] =
        Except.error msg) :=
  ⟨findOperated_validates_before_send "t" [("f", Value.str "x")] []
      ⟨"f", by simp, Or.inl rfl⟩,
   findOperated_validates_before_send "t" [("f", Value.objV 0)] [("f", Op.eq)]
      ⟨"f", by simp, Or.inr ⟨by decide, by decide⟩⟩⟩

/-- C8: `findWithin` issues a full-table scan whose filter is the
`BETWEEN` condition on the given field — inclusive of both bounds in the
store's semantics — with both bounds rendered as number-typed (`N`)
attributes, and returns the decoded items of the response. -/
theorem findWithin_between_request (send : ScanInput → ScanResponse) (t key : String)
    (start end_ : Int) :
    findWithinParams t key start end_ =
      { TableName := t
        FilterExpression := some (key ++ " BETWEEN :start AND :end")
        ExpressionAttributeValues := some
          [(":start", AttrVal.N (toString start)), (":end", AttrVal.N (toString end_))] } ∧
    findWithin send t key start end_ =
      scanBatch (send (findWithinParams t key start end_)) := by
  exact ⟨rfl, rfl⟩

/-- C10: `insertOrUpdate` and `deleteOne` wrap every key value — and
`findManyByField` its filter value — in an `S`-typed attribute,
whatever the runtime type of the supplied value. -/
theorem key_attributes_string_typed (t pk field : String) (item : Item)
    (sk : Option String) (pkValue v : Value) :
    (∀ q, insertOrUpdateParams t pk item sk = Except.ok q →
      ∀ p ∈ q.Key, ∃ w, p.2 = AttrVal.S w) ∧
    (deleteOneParams t pk pkValue).Key = [(pk, AttrVal.S pkValue)] ∧
    (findManyByFieldParams t field v).ExpressionAttributeValues =
      some [(":u", AttrVal.S v)] := by
  refine ⟨?_, rfl, rfl⟩
  intro q hq p hp
  rcases insertOrUpdateParams_key_shape t pk item sk q hq with hK | ⟨s, _, hK⟩
  · rw [hK] at hp
    have he := List.mem_singleton.mp hp
    exact ⟨_, by rw [he]⟩
  · rw [hK] at hp
    rcases List.mem_cons.mp hp with he | hp'
    · exact ⟨_, by rw [he]⟩
    · have he := List.mem_singleton.mp hp'
      exact ⟨_, by rw [he]⟩

/-- Witness for C10: an upsert whose partition-key value is the number
`5` still lands in the request's `Key` as an `S`-typed attribute. -/
theorem key_attributes_string_typed_witness :
    ∀ p ∈ ({ TableName := "t"
             Key := [("id", AttrVal.S (Value.num 5))]
             ReturnValues := "ALL_NEW"
             UpdateExpression := some "SET #field0 = :value0"
             ExpressionAttributeNames := some [("#field0", "x")]
             ExpressionAttributeValues := some [(":value0", AttrVal.S (Value.str "y"))] } :
           UpdateItemInput).Key, ∃ w, p.2 = AttrVal.S w :=
  (key_attributes_string_typed "t" "id" "f" [("id", Value.num 5), ("x", Value.str "y")]
      none (Value.num 7) (Value.num 8)).1
    { TableName := "t"
      Key := [("id", AttrVal.S (Value.num 5))]
      ReturnValues := "ALL_NEW"
      UpdateExpression := some "SET #field0 = :value0"
      ExpressionAttributeNames := some [("#field0", "x")]
      ExpressionAttributeValues := some [(":value0", AttrVal.S (Value.str "y"))] }
    rfl

end ExpressDynamo
